import Mathlib

/-!
Shallow embedding of the `collection` package of app-pokedex
(src/collection/schema.py, batch_parse.py, batch_coord.py, api.py).

The SQLite `pokemon` table is modelled as a list of rows paired with the
AUTOINCREMENT counter; a row holds its surrogate id, the two NOT NULL key
columns, and an association list giving the value of every other column
(`none` = SQL NULL).  Python dicts are modelled as association lists with
first-match lookup; dict-literal merging (`{a: x, **m}`) is modelled by
`dictInsert`, which lets later entries override earlier ones.
Fallible operations (SQL errors such as an unknown column or a NULL key,
`KeyError` on a missing dict key) return `Option`.
-/

namespace Collection

/-- A SQLite scalar value as used by this schema (SQL NULL is represented
    at the column level by `Option Val`). -/
inductive Val where
  | intV  : Int → Val
  | textV : String → Val
deriving DecidableEq, Repr

abbrev Field := String

/-- A Python dict of column name to nullable value, as passed to
    `upsert_pokemon` and produced by `json.loads`. -/
abbrev Dict := List (Field × Option Val)

/-- Insertion into a Python dict: replaces the value at an existing key,
    otherwise appends the binding. -/
def dictInsert (d : Dict) (k : Field) (v : Option Val) : Dict :=
  if d.any (fun p => p.1 = k) then
    d.map (fun p => if p.1 = k then (k, v) else p)
  else
    d ++ [(k, v)]

/-- All columns of the `pokemon` table, in the order of the CREATE TABLE
    statement of src/collection/schema.py (the migration columns are already
    part of that statement). -/
def schemaCols : List Field :=
  ["id", "box_number", "box_slot",
   "species_name", "dex_number", "form_name",
   "nickname", "level", "nature", "ability", "is_shiny", "gender",
   "held_item", "mark",
   "iv_hp", "iv_atk", "iv_def", "iv_spatk", "iv_spdef", "iv_speed",
   "ev_hp", "ev_atk", "ev_def", "ev_spatk", "ev_spdef", "ev_speed",
   "move1", "move2", "move3", "move4",
   "original_trainer", "trainer_id", "game_of_origin", "ball_type",
   "date_caught", "met_at_level", "met_at_location",
   "box_screenshot_path", "detail_screenshot_path", "detail_screenshot2_path",
   "sprite_path",
   "captured_at", "parsed_at", "raw_json"]

/-- The non-key, non-surrogate columns: every schema column except `id`,
    `box_number` and `box_slot`. -/
def attrCols : List Field :=
  schemaCols.filter (fun c => c ≠ "id" && c ≠ "box_number" && c ≠ "box_slot")

/-- Column DEFAULT clauses of the CREATE TABLE statement:
    `is_shiny BOOLEAN DEFAULT 0` and the two `TIMESTAMP DEFAULT
    CURRENT_TIMESTAMP` columns; `parsed_at` and all other columns default
    to NULL.  `now` stands for CURRENT_TIMESTAMP at insertion time. -/
def colDefault (now : Val) (c : Field) : Option Val :=
  if c = "is_shiny" then some (Val.intV 0)
  else if c = "captured_at" then some now
  else none

/-- One row of the `pokemon` table: surrogate id, the two NOT NULL key
    columns, and the remaining columns as an association list over
    `attrCols`. -/
structure Row where
  id : Nat
  box_number : Int
  box_slot : Int
  attrs : Dict
deriving DecidableEq, Repr

/-- The row matches the natural key `(bn, bs)`. -/
def Row.hasKey (r : Row) (bn bs : Int) : Bool :=
  r.box_number = bn && r.box_slot = bs

/-- The `pokemon` table: its rows plus the AUTOINCREMENT counter. -/
structure Store where
  rows : List Row
  nextId : Nat
deriving DecidableEq, Repr

/-- A freshly initialised database: no rows, first AUTOINCREMENT id 1. -/
def Store.init : Store := ⟨[], 1⟩

/-- The inserted row of the INSERT arm of `upsert_pokemon`: supplied columns
    take their supplied (possibly NULL) value, every other column its
    DEFAULT. -/
def mkNewRow (st : Store) (now : Val) (cols : Dict) (bn bs : Int) : Row :=
  { id := st.nextId, box_number := bn, box_slot := bs,
    attrs := attrCols.map (fun c => (c, (cols.lookup c).getD (colDefault now c))) }

/-- The columns named in the generated `DO UPDATE SET` clause:
    every supplied column except the two key columns. -/
def updateColsOf (cols : Dict) : List Field :=
  (cols.map Prod.fst).filter (fun c => c ≠ "box_number" && c ≠ "box_slot")

/-- The `DO UPDATE` arm applied to one row: the conflicting row gets every
    update column overwritten with its supplied value (`excluded.c`); every
    other row, and every other column, is untouched. -/
def updRow (cols : Dict) (bn bs : Int) (r : Row) : Row :=
  if r.hasKey bn bs then
    { r with attrs := r.attrs.map (fun p =>
        if p.1 ∈ updateColsOf cols then (p.1, (cols.lookup p.1).getD none) else p) }
  else r

/--
`upsert_pokemon` (src/collection/schema.py, lines 128-142).

`cols = [k for k in data if k != "id"]`; the generated SQL inserts the
supplied columns (unsupplied columns get their DEFAULT), and
`ON CONFLICT(box_number, box_slot) DO UPDATE` overwrites exactly the
supplied non-key columns of the conflicting row.  The function returns
`cur.lastrowid` of the fresh connection opened by `get_db()`: on the insert
path this is the new row's id; on the update path no insert happened on
that connection, so SQLite's last-insert-rowid is still 0.

`none` models a raised sqlite3 error, with the database left unchanged:
an unknown column or an empty `DO UPDATE SET` assignment list (when `cols`
holds no non-key column, `updates` is the empty string and sqlite3 raises
`OperationalError` at prepare time, before any row is touched — even on the
insert path), and a NULL or missing NOT NULL key at execute time.  All
callers in this repository supply the two key columns as integers, so a
non-integer key value is outside the model and also mapped to `none`.
-/
def upsert_pokemon (st : Store) (now : Val) (data : Dict) : Option (Store × Nat) :=
  let cols := data.filter (fun p => p.1 ≠ "id")
  if !(cols.all (fun p => p.1 ∈ schemaCols)) then none
  else if (updateColsOf cols).isEmpty then none
  else
    match cols.lookup "box_number", cols.lookup "box_slot" with
    | some (some (Val.intV bn)), some (some (Val.intV bs)) =>
        match st.rows.find? (fun r => r.hasKey bn bs) with
        | none =>
            some ({ rows := st.rows ++ [mkNewRow st now cols bn bs],
                    nextId := st.nextId + 1 }, st.nextId)
        | some _ =>
            some ({ st with rows := st.rows.map (updRow cols bn bs) }, 0)
    | _, _ => none

/-- The natural-key uniqueness invariant of the `pokemon` table
    (the `UNIQUE(box_number, box_slot)` constraint). -/
def keysUnique (st : Store) : Prop :=
  st.rows.Pairwise (fun r s => ¬(r.box_number = s.box_number ∧ r.box_slot = s.box_slot))

/-- Run a sequence of `upsert_pokemon` calls (every write to the `pokemon`
    table in this repository goes through `upsert_pokemon`); a failed call
    (a raised sqlite3 error) leaves the database unchanged. -/
def applyOps (st : Store) (ops : List (Val × Dict)) : Store :=
  ops.foldl (fun s op =>
    match upsert_pokemon s op.1 op.2 with
    | some p => p.1
    | none => s) st

/-- A well-formed row as the schema materialises it: its attribute list has
    exactly the non-key columns, in schema order. -/
def Row.WF (r : Row) : Prop := r.attrs.map Prod.fst = attrCols

/-- A concrete update dict used to evaluate `upsert_pokemon` on an example
    input. -/
def wData1 : Dict :=
  [("box_number", some (Val.intV 1)), ("box_slot", some (Val.intV 2)),
   ("level", some (Val.intV 7))]

/-- The store produced by upserting `wData1` into a fresh database. -/
def wStore1 : Store :=
  { rows := [mkNewRow Store.init (Val.textV "t")
      (wData1.filter (fun p => p.1 ≠ "id")) 1 2],
    nextId := 2 }

/-! ## batch_parse.py — the bounded-concurrency extraction runner -/

/-- One entry of parse_queue.json as consumed by `process_one`
    (src/collection/batch_parse.py): natural key plus screenshot path(s). -/
structure Item where
  box : Int
  slot : Int
  image_path : String
  image_path2 : Option String
deriving DecidableEq, Repr

/-- The `counters` dict of `run` (src/collection/batch_parse.py, lines
    233-240); the timing fields are irrelevant here. -/
structure Counters where
  ok : Nat
  errors : Nat
  skipped : Nat
  missing : Nat
deriving DecidableEq, Repr

/-- What one iteration of the retry loop of `process_one` observes from the
    extraction service (the body of the `try` up to `write_result`):
    a merged JSON dict, a `json.JSONDecodeError`, an
    `anthropic.RateLimitError`, or any other exception. -/
inductive Outcome where
  | ok (data : Dict)
  | jsonErr
  | rateLimit
  | otherErr
deriving DecidableEq, Repr

/-- Everything observable about one `process_one` call: the database
    afterwards, the counters afterwards, the `asyncio.sleep` durations
    performed (in order), and how many retry-loop iterations invoked the
    extraction service. -/
structure RunResult where
  store : Store
  counters : Counters
  sleeps : List Nat
  calls : Nat
deriving DecidableEq, Repr

/-- The serialised form `json.dumps(data)` stored into `raw_json`;
    the exact text never matters to any caller. -/
def dumpVal : Option Val → String
  | none => "null"
  | some (Val.intV n) => toString n
  | some (Val.textV s) => "\"" ++ s ++ "\""

def jsonDumps (d : Dict) : Val :=
  Val.textV ("\x7b" ++ String.intercalate ", "
    (d.map (fun p => "\"" ++ p.1 ++ "\": " ++ dumpVal p.2)) ++ "\x7d")

/-- `already_parsed` (src/collection/batch_parse.py, lines 91-98): the key's
    row exists and its `parsed_at` is not NULL. -/
def rowParsed (r : Row) : Bool :=
  ((r.attrs.lookup "parsed_at").getD none).isSome

def already_parsed (st : Store) (box slot : Int) : Bool :=
  match st.rows.find? (fun r => r.hasKey box slot) with
  | some r => rowParsed r
  | none => false

/-- `NON_DB_KEYS` of `write_result` (src/collection/batch_parse.py,
    line 102). -/
def NON_DB_KEYS : List Field := ["box", "slot", "image_path"]

/-- `write_result` (src/collection/batch_parse.py, lines 101-110): build the
    update dict (key columns, fresh `parsed_at`, `raw_json`, then every
    non-reserved non-None extracted field, later keys overriding) and upsert
    it.  `now` is `datetime.now().isoformat()`. -/
def write_result (st : Store) (now : Val) (item : Item) (data : Dict) :
    Option (Store × Nat) :=
  let base : Dict :=
    [("box_number", some (Val.intV item.box)),
     ("box_slot", some (Val.intV item.slot)),
     ("parsed_at", some now),
     ("raw_json", some (jsonDumps data))]
  let update := (data.filter (fun p => p.1 ∉ NON_DB_KEYS && p.2 ≠ none)).foldl
    (fun d p => dictInsert d p.1 p.2) base
  upsert_pokemon st now update

/--
The `for attempt in range(3)` retry loop of `process_one`
(src/collection/batch_parse.py, lines 159-203), driven by the per-attempt
service outcome.  On success the result is written and `ok` incremented; a
`JSONDecodeError` increments `errors` and returns without retrying; a
`RateLimitError` sleeps `2 ** (attempt + 1)` seconds and continues the
loop; any other exception (including a failing `write_result`) increments
`errors` on the last attempt and otherwise sleeps 1 second and continues.
Falling off the end of the loop changes nothing.
-/
def attemptLoop (now : Val) (item : Item) (outcome : Nat → Outcome) :
    List Nat → Store → Counters → List Nat → Nat → RunResult
  | [], st, cnt, sleeps, calls => ⟨st, cnt, sleeps, calls⟩
  | attempt :: rest, st, cnt, sleeps, calls =>
    match outcome attempt with
    | Outcome.ok data =>
        match write_result st now item data with
        | some (st', _) => ⟨st', { cnt with ok := cnt.ok + 1 }, sleeps, calls + 1⟩
        | none =>
            if attempt = 2 then
              ⟨st, { cnt with errors := cnt.errors + 1 }, sleeps, calls + 1⟩
            else
              attemptLoop now item outcome rest st cnt (sleeps ++ [1]) (calls + 1)
    | Outcome.jsonErr =>
        ⟨st, { cnt with errors := cnt.errors + 1 }, sleeps, calls + 1⟩
    | Outcome.rateLimit =>
        attemptLoop now item outcome rest st cnt (sleeps ++ [2 ^ (attempt + 1)]) (calls + 1)
    | Outcome.otherErr =>
        if attempt = 2 then
          ⟨st, { cnt with errors := cnt.errors + 1 }, sleeps, calls + 1⟩
        else
          attemptLoop now item outcome rest st cnt (sleeps ++ [1]) (calls + 1)

/-- `process_one` (src/collection/batch_parse.py, lines 137-203): skip keys
    already marked parsed, count items whose primary image is missing on
    disk, otherwise run the three-attempt retry loop.  `fileExists` models
    `Path(...).exists()`. -/
def process_one (st : Store) (cnt : Counters) (item : Item)
    (fileExists : String → Bool) (outcome : Nat → Outcome) (now : Val) :
    RunResult :=
  if already_parsed st item.box item.slot then
    ⟨st, { cnt with skipped := cnt.skipped + 1 }, [], 0⟩
  else if !fileExists item.image_path then
    ⟨st, { cnt with missing := cnt.missing + 1 }, [], 0⟩
  else
    attemptLoop now item outcome [0, 1, 2] st cnt [] 0

/-! ## batch_coord.py — split / import-all

A directory of `batch_NNNN.json` files is modelled as an association list
from the numeric index `NNNN` (the zero-padded file name, an injective
naming) to the parsed file content; JSON round-tripping is the identity. -/

abbrev Dir (α : Type) := List (Nat × α)

/-- `range(0, stop, step)` for a positive step, as used by `cmd_split`. -/
def pyRange (stop step : Nat) : List Nat :=
  (List.range ((stop + step - 1) / step)).map (fun j => j * step)

/-- The set of already-parsed natural keys, from
    `SELECT box_number, box_slot FROM pokemon WHERE parsed_at IS NOT NULL`. -/
def parsedKeys (st : Store) : List (Int × Int) :=
  (st.rows.filter rowParsed).map (fun r => (r.box_number, r.box_slot))

/-- The pending items of `cmd_split`: queue entries whose key is not in the
    already-parsed set. -/
def pendingOf (st : Store) (queue : List Item) : List Item :=
  queue.filter (fun it => (it.box, it.slot) ∉ parsedKeys st)

/-- The enumerate-and-write loop of `cmd_split`: write batch `i` only if
    the file does not already exist. -/
def writeChunks (fs : Dir (List Item)) (l : List (Nat × List Item)) :
    Dir (List Item) :=
  l.foldl (fun fs ib => if (fs.lookup ib.1).isSome then fs else fs ++ [ib]) fs

/-- `cmd_split` (src/collection/batch_coord.py, lines 28-52): filter the
    queue down to unparsed keys, slice it into `batch_size`-sized chunks
    (`pending[i:i+batch_size]` for `i in range(0, len(pending),
    batch_size)`), and write each chunk to `batch_NNNN.json` unless that
    file already exists. -/
def cmd_split (st : Store) (inputDir : Dir (List Item)) (queue : List Item)
    (batch_size : Nat) : Dir (List Item) :=
  let pending := pendingOf st queue
  let batches := (pyRange pending.length batch_size).map
    (fun i => (pending.drop i).take batch_size)
  writeChunks inputDir batches.enum

/-- One decoded item of an output batch file: a JSON object. -/
abbrev OutItem := Dict

/-- `NON_DB_KEYS` of `cmd_import_all` (src/collection/batch_coord.py,
    line 66). -/
def NON_DB_KEYS_IMPORT : List Field := ["box", "slot", "image_path", "image_path2"]

/-- The update dict built for one imported item (src/collection/batch_coord.py,
    lines 73-80): key columns from `item["box"]`/`item["slot"]` (a missing or
    non-integer key is a raised `KeyError`, modelled `none`), a fresh
    `parsed_at` and `raw_json`, then every item key that is a known column,
    not reserved, and not None, later keys overriding. -/
def importUpdate (item : OutItem) (now : Val) : Option Dict :=
  match item.lookup "box", item.lookup "slot" with
  | some (some (Val.intV b)), some (some (Val.intV s)) =>
      let base : Dict :=
        [("box_number", some (Val.intV b)),
         ("box_slot", some (Val.intV s)),
         ("parsed_at", some now),
         ("raw_json", some (jsonDumps item))]
      some ((item.filter (fun p =>
          p.1 ∉ NON_DB_KEYS_IMPORT && p.1 ∈ schemaCols && p.2 ≠ none)).foldl
        (fun d p => dictInsert d p.1 p.2) base)
  | _, _ => none

/-- The inner loop of `cmd_import_all` over one file's items: upsert each
    item in order.  An exception (`none`) aborts the run. -/
def importFile (st : Store) (now : Val) (items : List OutItem) : Option Store :=
  items.foldlM (fun s it => do
    let u ← importUpdate it now
    let p ← upsert_pokemon s now u
    pure p.1) st

/-- The outer loop of `cmd_import_all`: process each output file in order,
    moving it into `imported/` once fully processed. -/
def importLoop (now : Val) :
    List (Nat × List OutItem) → Store → Dir (List OutItem) →
    Option (Store × Dir (List OutItem))
  | [], st, imp => some (st, imp)
  | f :: rest, st, imp => do
      let st' ← importFile st now f.2
      importLoop now rest st' (imp ++ [f])

/-- Output files in the order `sorted(OUTPUT_DIR.glob("batch_*.json"))`
    visits them (ascending index). -/
def sortDir {α : Type} (d : Dir α) : Dir α :=
  d.mergeSort (fun a b => a.1 ≤ b.1)

/-- `cmd_import_all` (src/collection/batch_coord.py, lines 55-91): if there
    are no output files, return immediately; otherwise import every file in
    sorted order, moving each fully-processed file to `imported/`.  Returns
    the store and the two directories afterwards; `none` models an aborted
    run (an exception while importing). -/
def cmd_import_all (st : Store) (outputDir importedDir : Dir (List OutItem))
    (now : Val) : Option (Store × Dir (List OutItem) × Dir (List OutItem)) :=
  let files := sortDir outputDir
  if files.isEmpty then some (st, outputDir, importedDir)
  else
    match importLoop now files st importedDir with
    | some (st', imp') => some (st', [], imp')
    | none => none

/-! ## api.py — the read API's list endpoint -/

/-- Query parameters of `GET /api/pokemon`
    (src/collection/api.py, lines 38-43). -/
structure ListParams where
  q : Option String
  shiny : Option Bool
  ot : Option String
  limit : Nat
  offset : Nat

/-- The value of column `c` in row `r` (`none` = SQL NULL). -/
def attrVal (r : Row) (c : Field) : Option Val :=
  (r.attrs.lookup c).getD none

/-- The WHERE clause of `list_pokemon` (src/collection/api.py, lines
    47-65): always `parsed_at IS NOT NULL`, plus the optional filters.
    A Python-falsy (absent or empty) `q`/`ot` adds no condition.  `like`
    models SQLite's `value LIKE '%pat%'` as an arbitrary predicate on the
    (possibly NULL) column value; on NULL it must be false, which every
    instantiation below satisfies and no theorem here depends on. -/
def rowWhere (like : Option Val → String → Bool) (p : ListParams) (r : Row) :
    Bool :=
  rowParsed r &&
  (match p.q with
   | some s =>
       if s ≠ "" then
         like (attrVal r "species_name") s || like (attrVal r "nickname") s ||
         like (attrVal r "original_trainer") s
       else true
   | none => true) &&
  (match p.shiny with
   | some b => attrVal r "is_shiny" = some (Val.intV (if b then 1 else 0))
   | none => true) &&
  (match p.ot with
   | some s => if s ≠ "" then like (attrVal r "original_trainer") s else true
   | none => true)

/-- `ORDER BY box_number, box_slot`. -/
def keyLe (a b : Row) : Bool :=
  a.box_number < b.box_number ||
  (a.box_number = b.box_number && a.box_slot ≤ b.box_slot)

/-- The columns of the SELECT list of `list_pokemon` other than the three
    always-present ones. -/
def selectCols : List Field :=
  ["species_name", "dex_number", "form_name", "nickname", "level", "nature",
   "is_shiny", "gender", "original_trainer", "trainer_id", "ball_type",
   "detail_screenshot_path"]

/-- The `image_url` the handler derives from `detail_screenshot_path`
    (Python truthiness: NULL or empty gives None). -/
def imageUrl : Option Val → Option Val
  | some (Val.textV s) => if s = "" then none else some (Val.textV ("/image/" ++ s))
  | some (Val.intV n) => some (Val.textV ("/image/" ++ toString n))
  | none => none

/-- One item of the response: the projected columns plus `image_url`. -/
def projRow (r : Row) : Dict :=
  [("id", some (Val.intV (Int.ofNat r.id))),
   ("box_number", some (Val.intV r.box_number)),
   ("box_slot", some (Val.intV r.box_slot))] ++
  selectCols.map (fun c => (c, attrVal r c)) ++
  [("image_url", imageUrl (attrVal r "detail_screenshot_path"))]

/-- `list_pokemon` (src/collection/api.py, lines 37-91): count the rows
    matching the WHERE clause, then return the `limit`/`offset` page of the
    matching rows in key order, projected to the selected columns. -/
def list_pokemon (like : Option Val → String → Bool) (st : Store)
    (p : ListParams) : Nat × List Dict :=
  let matched := st.rows.filter (rowWhere like p)
  let total := matched.length
  let page := ((matched.mergeSort keyLe).drop p.offset).take p.limit
  (total, page.map projRow)

/-! ## Dictionary lemmas -/

theorem lookup_filter_fst (Q : Field → Bool) (k : Field) (hQ : Q k = true)
    (d : Dict) : (d.filter (fun p => Q p.1)).lookup k = d.lookup k := by
  induction d with
  | nil => rfl
  | cons p t ih =>
    obtain ⟨a, v⟩ := p
    rw [List.filter_cons]
    by_cases ha : k = a
    · subst ha; simp [hQ, List.lookup_cons]
    · have hne : (k == a) = false := beq_eq_false_iff_ne.mpr ha
      by_cases hQa : Q a = true
      · simp [hQa, List.lookup_cons, hne, ih]
      · simp [hQa, List.lookup_cons, hne, ih]

theorem lookup_map_key (g : Field → Option Val) (k : Field) (l : List Field) :
    ((l.map (fun c => (c, g c))).lookup k) = if k ∈ l then some (g k) else none := by
  induction l with
  | nil => rfl
  | cons a t ih =>
    by_cases ha : k = a
    · subst ha; simp [List.lookup_cons]
    · have hne : (k == a) = false := beq_eq_false_iff_ne.mpr ha
      simp [List.lookup_cons, hne, ih, ha]

theorem lookup_map_update (P : Field → Prop) [DecidablePred P]
    (g : Field → Option Val) (k : Field) (d : Dict) :
    ((d.map (fun p => if P p.1 then (p.1, g p.1) else p)).lookup k)
      = (d.lookup k).map (fun w => if P k then g k else w) := by
  induction d with
  | nil => rfl
  | cons p t ih =>
    obtain ⟨a, v⟩ := p
    by_cases ha : k = a
    · subst ha
      by_cases hP : P k <;> simp [hP, List.lookup_cons, ih]
    · have hne : (k == a) = false := beq_eq_false_iff_ne.mpr ha
      by_cases hP : P a <;> simp [hP, List.lookup_cons, hne, ih]

theorem lookup_map_replace (k : Field) (v : Option Val) (f : Field) (d : Dict) :
    (d.map (fun p => if p.1 = k then (k, v) else p)).lookup f
      = (d.lookup f).map (fun w => if f = k then v else w) := by
  induction d with
  | nil => rfl
  | cons p t ih =>
    obtain ⟨a, u⟩ := p
    by_cases ha : a = k
    · subst ha
      by_cases hf : f = a
      · subst hf; simp [List.lookup_cons]
      · have hne : (f == a) = false := beq_eq_false_iff_ne.mpr hf
        simp [List.lookup_cons, hne, ih]
    · by_cases hf : f = a
      · subst hf
        have hfk : ¬(f = k) := ha
        simp [ha, List.lookup_cons, hfk]
      · have hne : (f == a) = false := beq_eq_false_iff_ne.mpr hf
        simp [ha, List.lookup_cons, hne, ih]

theorem lookup_dictInsert (d : Dict) (k : Field) (v : Option Val) (f : Field) :
    (dictInsert d k v).lookup f = if f = k then some v else d.lookup f := by
  unfold dictInsert
  by_cases hany : d.any (fun p => p.1 = k) = true
  · rw [if_pos hany]
    rw [lookup_map_replace]
    by_cases hf : f = k
    · subst hf
      have hsome : (d.lookup f).isSome := by
        rw [List.lookup_isSome_iff]
        obtain ⟨p, hp, hpk⟩ := List.any_eq_true.mp hany
        exact ⟨p, hp, by simpa using (of_decide_eq_true hpk).symm⟩
      obtain ⟨w, hw⟩ := Option.isSome_iff_exists.mp hsome
      simp [hw]
    · cases hd : d.lookup f <;> simp [hf]
  · rw [if_neg hany]
    have hnone : d.lookup k = none := by
      rw [List.lookup_eq_none_iff]
      intro p hp
      have := List.any_eq_false.mp (Bool.of_not_eq_true hany) p hp
      simpa using fun hk => this (by simpa using hk.symm)
    rw [List.lookup_append]
    by_cases hf : f = k
    · subst hf; simp [hnone, List.lookup_cons]
    · have hne : (f == k) = false := beq_eq_false_iff_ne.mpr hf
      cases hd : d.lookup f <;> simp [hf, hd, List.lookup_cons, hne]

theorem lookup_foldl_dictInsert_eq_some (f : Field) (v : Option Val) :
    ∀ (l : Dict) (base : Dict),
      (l.foldl (fun d p => dictInsert d p.1 p.2) base).lookup f = some v →
      base.lookup f = some v ∨ (f, v) ∈ l := by
  intro l
  induction l with
  | nil => intro base h; exact Or.inl h
  | cons p t ih =>
    intro base h
    rcases ih (dictInsert base p.1 p.2) h with h' | h'
    · rw [lookup_dictInsert] at h'
      by_cases hf : f = p.1
      · subst hf
        rw [if_pos rfl] at h'
        exact Or.inr (by simp [← Option.some_inj.mp h'])
      · rw [if_neg hf] at h'
        exact Or.inl h'
    · exact Or.inr (List.mem_cons_of_mem _ h')

theorem lookup_foldl_dictInsert_of_forall_ne (f : Field) :
    ∀ (l : Dict) (base : Dict), (∀ p ∈ l, p.1 ≠ f) →
      (l.foldl (fun d p => dictInsert d p.1 p.2) base).lookup f = base.lookup f := by
  intro l
  induction l with
  | nil => intro base _; rfl
  | cons p t ih =>
    intro base hne
    have := ih (dictInsert base p.1 p.2) (fun q hq => hne q (List.mem_cons_of_mem _ hq))
    rw [List.foldl_cons] at *
    rw [this, lookup_dictInsert,
      if_neg (fun hf => hne p (List.mem_cons_self _ _) hf.symm)]

/-! ## upsert_pokemon lemmas -/

theorem updRow_box_number (cols : Dict) (bn bs : Int) (r : Row) :
    (updRow cols bn bs r).box_number = r.box_number := by
  unfold updRow; split <;> rfl

theorem updRow_box_slot (cols : Dict) (bn bs : Int) (r : Row) :
    (updRow cols bn bs r).box_slot = r.box_slot := by
  unfold updRow; split <;> rfl

theorem updRow_id (cols : Dict) (bn bs : Int) (r : Row) :
    (updRow cols bn bs r).id = r.id := by
  unfold updRow; split <;> rfl

/-- Case analysis for a successful `upsert_pokemon` call: the supplied key
    columns are integers, and either the key was absent and exactly the new
    row was appended (returning its fresh id), or it was present and every
    row was passed through `updRow` (returning 0). -/
theorem upsert_pokemon_eq_some (st : Store) (now : Val) (data : Dict)
    (st' : Store) (ret : Nat)
    (h : upsert_pokemon st now data = some (st', ret)) :
    ∃ bn bs,
      data.lookup "box_number" = some (some (Val.intV bn)) ∧
      data.lookup "box_slot" = some (some (Val.intV bs)) ∧
      ((st.rows.find? (fun r => r.hasKey bn bs) = none ∧
        st' = { rows := st.rows ++
                  [mkNewRow st now (data.filter (fun p => p.1 ≠ "id")) bn bs],
                nextId := st.nextId + 1 } ∧
        ret = st.nextId) ∨
       ((st.rows.find? (fun r => r.hasKey bn bs)).isSome ∧
        st' = { st with rows :=
                  st.rows.map (updRow (data.filter (fun p => p.1 ≠ "id")) bn bs) } ∧
        ret = 0)) := by
  unfold upsert_pokemon at h
  dsimp only at h
  split at h
  · exact absurd h (by simp)
  split at h
  · exact absurd h (by simp)
  · split at h
    next x y bn bs heq1 heq2 =>
      have hbn : data.lookup "box_number" = some (some (Val.intV bn)) := by
        rw [← lookup_filter_fst (fun c => decide (c ≠ "id")) "box_number" (by decide) data]
        exact heq1
      have hbs : data.lookup "box_slot" = some (some (Val.intV bs)) := by
        rw [← lookup_filter_fst (fun c => decide (c ≠ "id")) "box_slot" (by decide) data]
        exact heq2
      refine ⟨bn, bs, hbn, hbs, ?_⟩
      split at h
      next hfind =>
        left
        simp only [Option.some.injEq, Prod.mk.injEq] at h
        exact ⟨hfind, h.1.symm, h.2.symm⟩
      next r0 hfind =>
        right
        simp only [Option.some.injEq, Prod.mk.injEq] at h
        exact ⟨by simp [hfind], h.1.symm, h.2.symm⟩
    next x y hf =>
      exact absurd h (by simp)

theorem mem_attrCols {c : Field} (h : c ∈ attrCols) :
    c ≠ "id" ∧ c ≠ "box_number" ∧ c ≠ "box_slot" := by
  have h2 := (List.mem_filter.mp h).2
  simp only [Bool.and_eq_true, decide_eq_true_eq] at h2
  exact ⟨h2.1.1, h2.1.2, h2.2⟩

theorem Row.WF.lookup_isSome {r : Row} (h : Row.WF r) {c : Field}
    (hc : c ∈ attrCols) : (r.attrs.lookup c).isSome := by
  rw [List.lookup_isSome_iff]
  rw [Row.WF] at h
  rw [← h] at hc
  obtain ⟨p, hp, hfst⟩ := List.mem_map.mp hc
  exact ⟨p, hp, by simp [hfst]⟩

/-- A successful upsert preserves the `UNIQUE(box_number, box_slot)`
    invariant. -/
theorem upsert_keysUnique (st : Store) (now : Val) (data : Dict) (st' : Store)
    (ret : Nat) (h : upsert_pokemon st now data = some (st', ret))
    (hu : keysUnique st) : keysUnique st' := by
  obtain ⟨bn, bs, hbn, hbs, hcase⟩ := upsert_pokemon_eq_some st now data st' ret h
  rcases hcase with ⟨hfind, hst, -⟩ | ⟨hfind, hst, -⟩
  · subst hst
    unfold keysUnique at hu ⊢
    rw [List.pairwise_append]
    refine ⟨hu, List.pairwise_singleton _ _, ?_⟩
    intro a ha b hb
    obtain rfl := List.mem_singleton.mp hb
    have hnotkey := List.find?_eq_none.mp hfind a ha
    intro hcon
    refine hnotkey ?_
    have h1 : a.box_number = bn := by simpa [mkNewRow] using hcon.1
    have h2 : a.box_slot = bs := by simpa [mkNewRow] using hcon.2
    simp [Row.hasKey, h1, h2]
  · subst hst
    unfold keysUnique at hu ⊢
    rw [List.pairwise_map]
    refine hu.imp ?_
    intro a b hab
    simpa [updRow_box_number, updRow_box_slot] using hab

/-- C3: starting from an empty database, no sequence of `upsert_pokemon`
    calls (the only write path to the `pokemon` table in this repository)
    ever produces two records with the same `(box_number, box_slot)` pair. -/
theorem pokemon_natural_key_unique (ops : List (Val × Dict)) :
    keysUnique (applyOps Store.init ops) := by
  suffices h : ∀ st, keysUnique st → keysUnique (applyOps st ops) from
    h Store.init List.Pairwise.nil
  induction ops with
  | nil => intro st hu; simpa [applyOps] using hu
  | cons op t ih =>
    intro st hu
    simp only [applyOps, List.foldl_cons]
    have hstep : keysUnique (match upsert_pokemon st op.1 op.2 with
        | some p => p.1
        | none => st) := by
      cases hup : upsert_pokemon st op.1 op.2 with
      | none => simpa using hu
      | some p =>
        obtain ⟨st2, ret⟩ := p
        exact upsert_keysUnique st op.1 op.2 st2 ret hup hu
    have := ih _ hstep
    simpa [applyOps] using this

/-- C1 (amended): for a field mapping containing the two key columns, a
    successful `upsert_pokemon` call — which requires at least one further
    non-id column, since a keys-only mapping makes the generated
    `DO UPDATE SET` list empty and errors at prepare time, inserting
    nothing — either (key absent) appends exactly one
    new record whose supplied attribute columns hold the supplied values
    and whose remaining columns hold their schema default, or (key present)
    rewrites exactly the supplied non-key columns of that record, leaving
    every other column and every other record at its prior value; it never
    deletes a record. -/
theorem upsert_pokemon_correct
    (st : Store) (now : Val) (data : Dict) (st' : Store) (ret : Nat)
    (bn bs : Int)
    (hwf : ∀ r ∈ st.rows, Row.WF r)
    (hbn : data.lookup "box_number" = some (some (Val.intV bn)))
    (hbs : data.lookup "box_slot" = some (some (Val.intV bs)))
    (h : upsert_pokemon st now data = some (st', ret)) :
    (st.rows.find? (fun r => r.hasKey bn bs) = none →
      ∃ newRow,
        st'.rows = st.rows ++ [newRow] ∧
        newRow.box_number = bn ∧ newRow.box_slot = bs ∧
        (∀ c v, c ∈ attrCols → data.lookup c = some v →
          newRow.attrs.lookup c = some v) ∧
        (∀ c, c ∈ attrCols → data.lookup c = none →
          newRow.attrs.lookup c = some (colDefault now c))) ∧
    (∀ r0, st.rows.find? (fun r => r.hasKey bn bs) = some r0 →
      st'.rows.length = st.rows.length ∧
      (∀ r ∈ st.rows, r.hasKey bn bs = false → r ∈ st'.rows) ∧
      ∃ u ∈ st'.rows, u.id = r0.id ∧ u.box_number = r0.box_number ∧
        u.box_slot = r0.box_slot ∧
        (∀ c v, c ∈ attrCols → data.lookup c = some v →
          u.attrs.lookup c = some v) ∧
        (∀ c, c ∈ attrCols → data.lookup c = none →
          u.attrs.lookup c = r0.attrs.lookup c)) ∧
    st.rows.length ≤ st'.rows.length := by
  obtain ⟨bn', bs', hbn', hbs', hcase⟩ := upsert_pokemon_eq_some st now data st' ret h
  have hbn2 : bn = bn' := by simpa using hbn.symm.trans hbn'
  have hbs2 : bs = bs' := by simpa using hbs.symm.trans hbs'
  subst hbn2; subst hbs2
  have hlf : ∀ c : Field, c ≠ "id" →
      (data.filter (fun p => p.1 ≠ "id")).lookup c = data.lookup c := by
    intro c hc
    exact lookup_filter_fst (fun x => decide (x ≠ "id")) c (decide_eq_true hc) data
  rcases hcase with ⟨hfind, hst, -⟩ | ⟨hfind, hst, -⟩
  · -- insert path
    subst hst
    refine ⟨fun _ => ?_, fun r0 hr0 => by simp [hfind] at hr0, by simp⟩
    refine ⟨mkNewRow st now (data.filter (fun p => p.1 ≠ "id")) bn bs, rfl, rfl, rfl,
      ?_, ?_⟩
    · intro c v hc hcv
      obtain ⟨hid, -, -⟩ := mem_attrCols hc
      have : (mkNewRow st now (data.filter (fun p => p.1 ≠ "id")) bn bs).attrs.lookup c
          = if c ∈ attrCols then
              some (((data.filter (fun p => p.1 ≠ "id")).lookup c).getD (colDefault now c))
            else none := by
        simp only [mkNewRow]
        exact lookup_map_key _ c attrCols
      rw [this, if_pos hc, hlf c hid, hcv]
      rfl
    · intro c hc hcv
      obtain ⟨hid, -, -⟩ := mem_attrCols hc
      have : (mkNewRow st now (data.filter (fun p => p.1 ≠ "id")) bn bs).attrs.lookup c
          = if c ∈ attrCols then
              some (((data.filter (fun p => p.1 ≠ "id")).lookup c).getD (colDefault now c))
            else none := by
        simp only [mkNewRow]
        exact lookup_map_key _ c attrCols
      rw [this, if_pos hc, hlf c hid, hcv]
      rfl
  · -- update path
    subst hst
    obtain ⟨r0', hfind'⟩ := Option.isSome_iff_exists.mp hfind
    refine ⟨fun hnone => by simp [hnone] at hfind, fun r0 hr0 => ?_, by simp⟩
    have hr0mem : r0 ∈ st.rows := List.mem_of_find?_eq_some hr0
    have hr0key : r0.hasKey bn bs = true := by
      have := List.find?_some hr0
      simpa using this
    refine ⟨by simp, ?_, ?_⟩
    · intro r hr hkey
      refine List.mem_map.mpr ⟨r, hr, ?_⟩
      unfold updRow
      rw [if_neg (by simp [hkey])]
    · refine ⟨updRow (data.filter (fun p => p.1 ≠ "id")) bn bs r0,
        List.mem_map.mpr ⟨r0, hr0mem, rfl⟩,
        updRow_id _ _ _ _, updRow_box_number _ _ _ _, updRow_box_slot _ _ _ _,
        ?_, ?_⟩
      · intro c v hc hcv
        obtain ⟨hid, hnb, hns⟩ := mem_attrCols hc
        have hcol : (data.filter (fun p => p.1 ≠ "id")).lookup c = some v :=
          (hlf c hid).trans hcv
        have hmemfst : c ∈ (data.filter (fun p => p.1 ≠ "id")).map Prod.fst := by
          have hs : ((data.filter (fun p => p.1 ≠ "id")).lookup c).isSome := by
            rw [hcol]; rfl
          obtain ⟨p, hp, hpc⟩ := List.lookup_isSome_iff.mp hs
          exact List.mem_map.mpr ⟨p, hp, (beq_iff_eq.mp hpc).symm⟩
        have hmemcols : c ∈ updateColsOf (data.filter (fun p => p.1 ≠ "id")) := by
          unfold updateColsOf
          exact List.mem_filter.mpr ⟨hmemfst, by simp [hnb, hns]⟩
        unfold updRow
        rw [if_pos hr0key]
        rw [lookup_map_update (fun x => x ∈ updateColsOf (data.filter (fun p => p.1 ≠ "id")))
          (fun x => ((data.filter (fun p => p.1 ≠ "id")).lookup x).getD none) c r0.attrs]
        obtain ⟨w, hw⟩ := Option.isSome_iff_exists.mp ((hwf r0 hr0mem).lookup_isSome hc)
        rw [hw, Option.map_some', if_pos hmemcols, hcol]
        rfl
      · intro c hc hcv
        obtain ⟨hid, -, -⟩ := mem_attrCols hc
        have hcol : (data.filter (fun p => p.1 ≠ "id")).lookup c = none :=
          (hlf c hid).trans hcv
        have hnotmem : c ∉ updateColsOf (data.filter (fun p => p.1 ≠ "id")) := by
          intro hmem
          have hmem2 := (List.mem_filter.mp hmem).1
          obtain ⟨p, hp, hfst⟩ := List.mem_map.mp hmem2
          have hS : ((data.filter (fun p => p.1 ≠ "id")).lookup c).isSome :=
            List.lookup_isSome_iff.mpr ⟨p, hp, by simp [hfst]⟩
          rw [hcol] at hS
          exact Bool.false_ne_true hS
        unfold updRow
        rw [if_pos hr0key]
        rw [lookup_map_update (fun x => x ∈ updateColsOf (data.filter (fun p => p.1 ≠ "id")))
          (fun x => ((data.filter (fun p => p.1 ≠ "id")).lookup x).getD none) c r0.attrs]
        cases hl : r0.attrs.lookup c
        · rfl
        · rw [Option.map_some', if_neg hnotmem]

/-- Witness for C1: the contract evaluated at a fresh database and the
    update dict `wData1`. -/
theorem upsert_pokemon_correct_witness :
    (∀ r ∈ Store.init.rows, Row.WF r) ∧
    wData1.lookup "box_number" = some (some (Val.intV 1)) ∧
    wData1.lookup "box_slot" = some (some (Val.intV 2)) ∧
    upsert_pokemon Store.init (Val.textV "t") wData1 = some (wStore1, 1) ∧
    ((Store.init.rows.find? (fun r => r.hasKey 1 2) = none →
      ∃ newRow,
        wStore1.rows = Store.init.rows ++ [newRow] ∧
        newRow.box_number = 1 ∧ newRow.box_slot = 2 ∧
        (∀ c v, c ∈ attrCols → wData1.lookup c = some v →
          newRow.attrs.lookup c = some v) ∧
        (∀ c, c ∈ attrCols → wData1.lookup c = none →
          newRow.attrs.lookup c = some (colDefault (Val.textV "t") c))) ∧
    (∀ r0, Store.init.rows.find? (fun r => r.hasKey 1 2) = some r0 →
      wStore1.rows.length = Store.init.rows.length ∧
      (∀ r ∈ Store.init.rows, r.hasKey 1 2 = false → r ∈ wStore1.rows) ∧
      ∃ u ∈ wStore1.rows, u.id = r0.id ∧ u.box_number = r0.box_number ∧
        u.box_slot = r0.box_slot ∧
        (∀ c v, c ∈ attrCols → wData1.lookup c = some v →
          u.attrs.lookup c = some v) ∧
        (∀ c, c ∈ attrCols → wData1.lookup c = none →
          u.attrs.lookup c = r0.attrs.lookup c)) ∧
    Store.init.rows.length ≤ wStore1.rows.length) :=
  ⟨by simp [Store.init], rfl, rfl, rfl,
   upsert_pokemon_correct Store.init (Val.textV "t") wData1 wStore1 1 1 2
     (by simp [Store.init]) rfl rfl rfl⟩

/-- C1 (counterexample): a field mapping holding only the two key columns is
    within the claim's scope, yet `upsert_pokemon` inserts nothing for it —
    the generated `DO UPDATE SET` assignment list is empty, so sqlite3
    raises `OperationalError` at prepare time even though no record with
    the key exists, refuting "inserts exactly one new record" at this
    input. -/
theorem upsert_keys_only_errors :
    ([("box_number", some (Val.intV 1)), ("box_slot", some (Val.intV 2))] :
        Dict).lookup "box_number" = some (some (Val.intV 1)) ∧
    ([("box_number", some (Val.intV 1)), ("box_slot", some (Val.intV 2))] :
        Dict).lookup "box_slot" = some (some (Val.intV 2)) ∧
    Store.init.rows.find? (fun r => r.hasKey 1 2) = none ∧
    upsert_pokemon Store.init (Val.textV "t")
      [("box_number", some (Val.intV 1)), ("box_slot", some (Val.intV 2))] = none :=
  ⟨rfl, rfl, rfl, rfl⟩

/-- C7 (refuted): `upsert_pokemon` returns the new record's surrogate id on
    the insert path, but on the update path `cur.lastrowid` of the freshly
    opened connection is 0 — not the id (1) of the record addressed by the
    natural key.  Evaluated at the failing input: the same key upserted
    twice into a fresh database. -/
theorem upsert_update_path_returns_zero :
    ((upsert_pokemon Store.init (Val.textV "t0")
        [("box_number", some (Val.intV 1)), ("box_slot", some (Val.intV 2)),
         ("level", some (Val.intV 5))]).map
      (fun p => (p.2, p.1.rows.map Row.id)) = some (1, [1])) ∧
    (((upsert_pokemon Store.init (Val.textV "t0")
        [("box_number", some (Val.intV 1)), ("box_slot", some (Val.intV 2)),
         ("level", some (Val.intV 5))]).bind
      (fun p => upsert_pokemon p.1 (Val.textV "t1")
        [("box_number", some (Val.intV 1)), ("box_slot", some (Val.intV 2)),
         ("nickname", some (Val.textV "Zap"))])).map
      (fun p => (p.2, p.1.rows.map Row.id)) = some (0, [1])) :=
  ⟨rfl, rfl⟩

/-! ## Claims about the extraction runner (batch_parse.py) -/

/-- C2 (partly refuted): when every attempt raises `RateLimitError` the
    runner does sleep the exponential backoff 2, 4, 8 seconds and makes
    3 total attempts — but it then returns without incrementing the error
    counter: the item ends up counted in no counter at all, contradicting
    the claim that the exhausted item is counted as an error. -/
theorem rate_limit_exhaustion_uncounted :
    process_one Store.init ⟨0, 0, 0, 0⟩ ⟨0, 0, "img.png", none⟩
      (fun _ => true) (fun _ => Outcome.rateLimit) (Val.textV "now") =
      ⟨Store.init, ⟨0, 0, 0, 0⟩, [2, 4, 8], 3⟩ := by
  rfl

/-- C4: an item whose extraction call returns a malformed (non-JSON) body
    increments the error counter exactly once, is not retried (exactly one
    service invocation, no backoff sleeps), and leaves the record store
    unchanged. -/
theorem process_one_malformed_response
    (st : Store) (cnt : Counters) (item : Item)
    (fileExists : String → Bool) (outcome : Nat → Outcome) (now : Val)
    (hskip : already_parsed st item.box item.slot = false)
    (hfile : fileExists item.image_path = true)
    (hout : outcome 0 = Outcome.jsonErr) :
    process_one st cnt item fileExists outcome now =
      ⟨st, { cnt with errors := cnt.errors + 1 }, [], 1⟩ := by
  simp only [process_one, hskip, hfile, Bool.not_true, Bool.false_eq_true,
    if_false]
  unfold attemptLoop
  rw [hout]

/-- Witness for C4: a malformed response on a fresh database. -/
theorem process_one_malformed_response_witness :
    already_parsed Store.init 0 0 = false ∧
    (fun _ : String => true) "a" = true ∧
    (fun _ : Nat => Outcome.jsonErr) 0 = Outcome.jsonErr ∧
    process_one Store.init ⟨0, 0, 0, 0⟩ ⟨0, 0, "a", none⟩
      (fun _ => true) (fun _ => Outcome.jsonErr) (Val.textV "t") =
      ⟨Store.init, ⟨0, 1, 0, 0⟩, [], 1⟩ :=
  ⟨rfl, rfl, rfl,
   process_one_malformed_response Store.init ⟨0, 0, 0, 0⟩ ⟨0, 0, "a", none⟩
     (fun _ => true) (fun _ => Outcome.jsonErr) (Val.textV "t") rfl rfl rfl⟩

/-- C5: an item whose key is already marked parsed is counted as skipped,
    and the extraction service is never invoked for it (zero service calls,
    no sleeps, store unchanged). -/
theorem process_one_skips_already_parsed
    (st : Store) (cnt : Counters) (item : Item)
    (fileExists : String → Bool) (outcome : Nat → Outcome) (now : Val)
    (h : already_parsed st item.box item.slot = true) :
    process_one st cnt item fileExists outcome now =
      ⟨st, { cnt with skipped := cnt.skipped + 1 }, [], 0⟩ := by
  simp only [process_one, h, if_true]

/-- Witness for C5: a store whose only record is already parsed. -/
theorem process_one_skips_already_parsed_witness :
    already_parsed ⟨[⟨1, 0, 0, [("parsed_at", some (Val.textV "p"))]⟩], 2⟩ 0 0 = true ∧
    process_one ⟨[⟨1, 0, 0, [("parsed_at", some (Val.textV "p"))]⟩], 2⟩
      ⟨0, 0, 0, 0⟩ ⟨0, 0, "a", none⟩ (fun _ => true) (fun _ => Outcome.otherErr)
      (Val.textV "t") =
      ⟨⟨[⟨1, 0, 0, [("parsed_at", some (Val.textV "p"))]⟩], 2⟩, ⟨0, 0, 1, 0⟩, [], 0⟩ :=
  ⟨rfl,
   process_one_skips_already_parsed ⟨[⟨1, 0, 0, [("parsed_at", some (Val.textV "p"))]⟩], 2⟩
     ⟨0, 0, 0, 0⟩ ⟨0, 0, "a", none⟩ (fun _ => true) (fun _ => Outcome.otherErr)
     (Val.textV "t") rfl⟩

/-! ## Claims about the batch coordinator (batch_coord.py) -/

theorem writeChunks_lookup_some (n : Nat) (v : List Item) :
    ∀ (l : List (Nat × List Item)) (fs : Dir (List Item)),
      fs.lookup n = some v → (writeChunks fs l).lookup n = some v := by
  intro l
  induction l with
  | nil => intro fs h; exact h
  | cons ib t ih =>
    intro fs h
    show (writeChunks (if (fs.lookup ib.1).isSome then fs else fs ++ [ib]) t).lookup n
      = some v
    apply ih
    by_cases hs : (fs.lookup ib.1).isSome
    · rw [if_pos hs]; exact h
    · rw [if_neg hs, List.lookup_append, h]; rfl

theorem writeChunks_length :
    ∀ (l : List (Nat × List Item)) (fs : Dir (List Item)),
      (∀ p ∈ l, fs.lookup p.1 = none) → (l.map Prod.fst).Nodup →
      (writeChunks fs l).length = fs.length + l.length := by
  intro l
  induction l with
  | nil => intro fs _ _; rfl
  | cons ib t ih =>
    obtain ⟨i1, i2⟩ := ib
    intro fs hfresh hnd
    have hib : fs.lookup i1 = none := hfresh (i1, i2) (List.mem_cons_self _ _)
    have hnd2 : (i1 :: t.map Prod.fst).Nodup := by simpa using hnd
    obtain ⟨hnotmem, hnd'⟩ := List.nodup_cons.mp hnd2
    show (writeChunks (if (fs.lookup i1).isSome then fs else fs ++ [(i1, i2)]) t).length
      = fs.length + (t.length + 1)
    rw [if_neg (by simp [hib])]
    have hfresh' : ∀ p ∈ t, (fs ++ [(i1, i2)]).lookup p.1 = none := by
      intro p hp
      rw [List.lookup_append, hfresh p (List.mem_cons_of_mem _ hp)]
      have hne : (p.1 == i1) = false := by
        apply beq_eq_false_iff_ne.mpr
        intro hpe
        exact hnotmem (List.mem_map.mpr ⟨p, hp, hpe⟩)
      simp only [Option.none_or, List.lookup_cons, hne, List.lookup_nil]
    rw [ih (fs ++ [(i1, i2)]) hfresh' hnd']
    simp [List.length_append]
    omega

theorem writeChunks_lookup_new (n : Nat) (v : List Item) :
    ∀ (l : List (Nat × List Item)) (fs : Dir (List Item)),
      (writeChunks fs l).lookup n = some v →
      fs.lookup n = some v ∨ (n, v) ∈ l := by
  intro l
  induction l with
  | nil => intro fs h; exact Or.inl h
  | cons ib t ih =>
    obtain ⟨i1, i2⟩ := ib
    intro fs h
    have h' : (writeChunks (if (fs.lookup i1).isSome then fs else fs ++ [(i1, i2)]) t).lookup n
        = some v := h
    rcases ih _ h' with hstep | hmem
    · by_cases hs : (fs.lookup i1).isSome
      · rw [if_pos hs] at hstep; exact Or.inl hstep
      · rw [if_neg hs, List.lookup_append] at hstep
        cases hfs : fs.lookup n with
        | some w =>
          rw [hfs, Option.or_some] at hstep
          exact Or.inl hstep
        | none =>
          rw [hfs] at hstep
          simp only [Option.none_or, List.lookup_cons] at hstep
          by_cases hn : (n == i1) = true
          · simp only [hn] at hstep
            have heq : (n, v) = (i1, i2) := by
              simp only [Option.some.injEq] at hstep
              simp [beq_iff_eq.mp hn, hstep]
            exact Or.inr (heq ▸ List.mem_cons_self _ _)
          · simp only [Bool.not_eq_true] at hn
            simp [hn] at hstep
    · exact Or.inr (List.mem_cons_of_mem _ hmem)

/-- C6: with batch size `K > 0`, splitting writes `⌈M/K⌉` chunk files into a
    fresh input directory (`M` the pending count), never overwrites a chunk
    file that already exists, and an empty pending set writes no files at
    all (and raises no error). -/
theorem cmd_split_spec (st : Store) (inputDir : Dir (List Item))
    (queue : List Item) (K : Nat) (hK : 0 < K) :
    ((∀ n, inputDir.lookup n = none) →
      (cmd_split st inputDir queue K).length
        = inputDir.length + ((pendingOf st queue).length + K - 1) / K) ∧
    (∀ n v, inputDir.lookup n = some v →
      (cmd_split st inputDir queue K).lookup n = some v) ∧
    ((pendingOf st queue).length = 0 → cmd_split st inputDir queue K = inputDir) := by
  refine ⟨?_, ?_, ?_⟩
  · intro hfresh
    show (writeChunks inputDir _).length = _
    rw [writeChunks_length _ inputDir (fun p _ => hfresh p.1) (List.nodup_enum_map_fst _)]
    have : (List.enum ((pyRange (pendingOf st queue).length K).map
        (fun i => ((pendingOf st queue).drop i).take K))).length
        = ((pendingOf st queue).length + K - 1) / K := by
      show (List.enumFrom 0 _).length = _
      rw [List.enumFrom_length, List.length_map]
      simp [pyRange]
    rw [this]
  · intro n v h
    exact writeChunks_lookup_some n v _ inputDir h
  · intro hM
    obtain hnil := List.length_eq_zero.mp hM
    show writeChunks inputDir _ = inputDir
    rw [hnil]
    have hr : (K - 1) / K = 0 := Nat.div_eq_of_lt (by omega)
    simp [pyRange, hr, writeChunks]

/-- Witness for C6: splitting three pending items with batch size 2. -/
theorem cmd_split_spec_witness :
    (0 : Nat) < 2 ∧
    (((∀ n, ([] : Dir (List Item)).lookup n = none) →
      (cmd_split Store.init []
        [⟨0, 0, "a", none⟩, ⟨0, 1, "b", none⟩, ⟨0, 2, "c", none⟩] 2).length
        = ([] : Dir (List Item)).length +
          ((pendingOf Store.init
            [⟨0, 0, "a", none⟩, ⟨0, 1, "b", none⟩, ⟨0, 2, "c", none⟩]).length + 2 - 1) / 2) ∧
    (∀ n v, ([] : Dir (List Item)).lookup n = some v →
      (cmd_split Store.init []
        [⟨0, 0, "a", none⟩, ⟨0, 1, "b", none⟩, ⟨0, 2, "c", none⟩] 2).lookup n = some v) ∧
    ((pendingOf Store.init
        [⟨0, 0, "a", none⟩, ⟨0, 1, "b", none⟩, ⟨0, 2, "c", none⟩]).length = 0 →
      cmd_split Store.init []
        [⟨0, 0, "a", none⟩, ⟨0, 1, "b", none⟩, ⟨0, 2, "c", none⟩] 2 = [])) :=
  ⟨by decide,
   cmd_split_spec Store.init []
     [⟨0, 0, "a", none⟩, ⟨0, 1, "b", none⟩, ⟨0, 2, "c", none⟩] 2 (by decide)⟩

/-- C8: every item of every chunk file newly written by `cmd_split` has a
    key whose record (if any) lacks a parsed timestamp: a record with a
    non-null `parsed_at` is never included in a produced chunk. -/
theorem cmd_split_excludes_parsed
    (st : Store) (inputDir : Dir (List Item)) (queue : List Item) (K : Nat)
    (n : Nat) (content : List Item) (it : Item) (r : Row)
    (hfresh : inputDir.lookup n = none)
    (hlook : (cmd_split st inputDir queue K).lookup n = some content)
    (hit : it ∈ content) (hr : r ∈ st.rows)
    (hbn : r.box_number = it.box) (hbs : r.box_slot = it.slot) :
    rowParsed r = false := by
  rcases writeChunks_lookup_new n content _ inputDir hlook with h | h
  · rw [hfresh] at h; cases h
  · have hmemsnd : content ∈ (List.enum ((pyRange (pendingOf st queue).length K).map
        (fun i => ((pendingOf st queue).drop i).take K))).map Prod.snd :=
      List.mem_map.mpr ⟨(n, content), h, rfl⟩
    rw [show (List.enum ((pyRange (pendingOf st queue).length K).map
        (fun i => ((pendingOf st queue).drop i).take K))).map Prod.snd = _ from
      List.enumFrom_map_snd 0 _] at hmemsnd
    obtain ⟨i, hi, hcontent⟩ := List.mem_map.mp hmemsnd
    have hitp : it ∈ pendingOf st queue := by
      have h1 : it ∈ ((pendingOf st queue).drop i).take K := hcontent ▸ hit
      exact List.drop_subset i _ (List.take_subset K _ h1)
    have hnotin : (it.box, it.slot) ∉ parsedKeys st := by
      have := (List.mem_filter.mp hitp).2
      simpa using this
    by_contra hcon
    have hparsed : rowParsed r = true := by
      cases hrb : rowParsed r
      · exact absurd hrb hcon
      · rfl
    exact hnotin (List.mem_map.mpr
      ⟨r, List.mem_filter.mpr ⟨hr, hparsed⟩, by rw [hbn, hbs]⟩)

/-- Witness for C8: a single-item queue split against a store holding one
    unparsed record with the same key. -/
theorem cmd_split_excludes_parsed_witness :
    (([] : Dir (List Item)).lookup 0 = none) ∧
    ((cmd_split ⟨[⟨1, 0, 0, [("parsed_at", none)]⟩], 2⟩ []
        [⟨0, 0, "a", none⟩] 1).lookup 0 = some [⟨0, 0, "a", none⟩]) ∧
    ((⟨0, 0, "a", none⟩ : Item) ∈ [(⟨0, 0, "a", none⟩ : Item)]) ∧
    ((⟨1, 0, 0, [("parsed_at", none)]⟩ : Row) ∈
      (⟨[⟨1, 0, 0, [("parsed_at", none)]⟩], 2⟩ : Store).rows) ∧
    rowParsed ⟨1, 0, 0, [("parsed_at", none)]⟩ = false :=
  ⟨rfl, by decide, by decide, by decide,
   cmd_split_excludes_parsed ⟨[⟨1, 0, 0, [("parsed_at", none)]⟩], 2⟩ []
     [⟨0, 0, "a", none⟩] 1 0 [⟨0, 0, "a", none⟩] ⟨0, 0, "a", none⟩
     ⟨1, 0, 0, [("parsed_at", none)]⟩ rfl (by decide) (by decide) (by decide)
     rfl rfl⟩

/-! ## Claims about the read API (api.py) -/

theorem rowWhere_parsed (like : Option Val → String → Bool) (p : ListParams)
    (r : Row) (h : rowWhere like p r = true) : rowParsed r = true := by
  unfold rowWhere at h
  simp only [Bool.and_eq_true] at h
  exact h.1.1.1

/-- C10: whatever the filter and pagination parameters (and whatever the
    semantics of SQL `LIKE`), every item returned by the list endpoint is
    the projection of a record with a non-null `parsed_at`, and the
    reported total counts exactly the rows matching the WHERE clause —
    which always includes `parsed_at IS NOT NULL` — so it never exceeds
    the number of parsed records. -/
theorem list_pokemon_only_parsed (like : Option Val → String → Bool)
    (st : Store) (p : ListParams) :
    (∀ d ∈ (list_pokemon like st p).2,
      ∃ r ∈ st.rows, rowParsed r = true ∧ d = projRow r) ∧
    (list_pokemon like st p).1 = (st.rows.filter (rowWhere like p)).length ∧
    (list_pokemon like st p).1 ≤ (st.rows.filter rowParsed).length := by
  refine ⟨?_, rfl, ?_⟩
  · intro d hd
    obtain ⟨r, hrpage, rfl⟩ := List.mem_map.mp hd
    have hr1 : r ∈ (st.rows.filter (rowWhere like p)).mergeSort keyLe :=
      List.drop_subset p.offset _ (List.take_subset p.limit _ hrpage)
    have hr2 : r ∈ st.rows.filter (rowWhere like p) :=
      (List.mergeSort_perm (st.rows.filter (rowWhere like p)) keyLe).mem_iff.mp hr1
    obtain ⟨hrmem, hrw⟩ := List.mem_filter.mp hr2
    exact ⟨r, hrmem, rowWhere_parsed like p r hrw, rfl⟩
  · exact (List.monotone_filter_right st.rows
      (fun r hr => rowWhere_parsed like p r hr)).length_le

/-! ## Claims about cmd_import_all (batch_coord.py) -/

/-- A successful upsert leaves a record with the supplied key in the
    store. -/
theorem upsert_key_establishes (st : Store) (now : Val) (data : Dict)
    (st' : Store) (ret : Nat) (b s : Int)
    (h : upsert_pokemon st now data = some (st', ret))
    (hb : data.lookup "box_number" = some (some (Val.intV b)))
    (hs : data.lookup "box_slot" = some (some (Val.intV s))) :
    ∃ r ∈ st'.rows, r.box_number = b ∧ r.box_slot = s := by
  obtain ⟨bn, bs, hbn, hbs, hcase⟩ := upsert_pokemon_eq_some st now data st' ret h
  have hbn2 : b = bn := by simpa using hb.symm.trans hbn
  have hbs2 : s = bs := by simpa using hs.symm.trans hbs
  subst hbn2; subst hbs2
  rcases hcase with ⟨hfind, hst, -⟩ | ⟨hfind, hst, -⟩
  · subst hst
    exact ⟨mkNewRow st now (data.filter (fun p => p.1 ≠ "id")) b s,
      List.mem_append_right _ (List.mem_singleton.mpr rfl), rfl, rfl⟩
  · subst hst
    obtain ⟨r0, hr0⟩ := Option.isSome_iff_exists.mp hfind
    have hr0key := List.find?_some hr0
    have hkey : r0.box_number = b ∧ r0.box_slot = s := by
      have : (r0.box_number = b && r0.box_slot = s) = true := by
        simpa [Row.hasKey] using hr0key
      simpa using this
    exact ⟨updRow (data.filter (fun p => p.1 ≠ "id")) b s r0,
      List.mem_map.mpr ⟨r0, List.mem_of_find?_eq_some hr0, rfl⟩,
      (updRow_box_number _ _ _ _).trans hkey.1,
      (updRow_box_slot _ _ _ _).trans hkey.2⟩

/-- A successful upsert never removes a key from the store. -/
theorem upsert_preserves_key (st : Store) (now : Val) (data : Dict)
    (st' : Store) (ret : Nat) (b s : Int)
    (h : upsert_pokemon st now data = some (st', ret))
    (hex : ∃ r ∈ st.rows, r.box_number = b ∧ r.box_slot = s) :
    ∃ r ∈ st'.rows, r.box_number = b ∧ r.box_slot = s := by
  obtain ⟨bn, bs, -, -, hcase⟩ := upsert_pokemon_eq_some st now data st' ret h
  obtain ⟨r, hrmem, hr1, hr2⟩ := hex
  rcases hcase with ⟨-, hst, -⟩ | ⟨-, hst, -⟩
  · subst hst
    exact ⟨r, List.mem_append_left _ hrmem, hr1, hr2⟩
  · subst hst
    exact ⟨updRow (data.filter (fun p => p.1 ≠ "id")) bn bs r,
      List.mem_map.mpr ⟨r, hrmem, rfl⟩,
      (updRow_box_number _ _ _ _).trans hr1,
      (updRow_box_slot _ _ _ _).trans hr2⟩

/-- Unpack one step of `importFile`. -/
theorem importFile_cons (st : Store) (now : Val) (it : OutItem)
    (t : List OutItem) (st2 : Store)
    (h : importFile st now (it :: t) = some st2) :
    ∃ u s1 ret, importUpdate it now = some u ∧
      upsert_pokemon st now u = some (s1, ret) ∧
      importFile s1 now t = some st2 := by
  rw [importFile, List.foldlM_cons] at h
  obtain ⟨s1, hg, hrest⟩ := Option.bind_eq_some.mp h
  obtain ⟨u, hu, hg2⟩ := Option.bind_eq_some.mp hg
  obtain ⟨pr, hup, hpure⟩ := Option.bind_eq_some.mp hg2
  have hs1 : s1 = pr.1 := by simpa using hpure.symm
  subst hs1
  refine ⟨u, pr.1, pr.2, hu, ?_, hrest⟩
  rw [Prod.mk.eta]
  exact hup

/-- `importFile` never removes a key from the store. -/
theorem importFile_preserves_key (now : Val) (b s : Int) :
    ∀ (items : List OutItem) (st st2 : Store),
      importFile st now items = some st2 →
      (∃ r ∈ st.rows, r.box_number = b ∧ r.box_slot = s) →
      ∃ r ∈ st2.rows, r.box_number = b ∧ r.box_slot = s := by
  intro items
  induction items with
  | nil =>
    intro st st2 h hex
    have : st = st2 := by simpa [importFile] using h
    exact this ▸ hex
  | cons it t ih =>
    intro st st2 h hex
    obtain ⟨u, s1, ret, hu, hup, hrest⟩ := importFile_cons st now it t st2 h
    exact ih s1 st2 hrest (upsert_preserves_key st now u s1 ret b s hup hex)

/-- Every item of a successfully imported file leaves a record with that
    item's key in the store (provided the item does not itself override the
    key columns). -/
theorem importFile_establishes (now : Val) (b s : Int) :
    ∀ (items : List OutItem) (st st2 : Store),
      importFile st now items = some st2 →
      ∀ item ∈ items,
        item.lookup "box" = some (some (Val.intV b)) →
        item.lookup "slot" = some (some (Val.intV s)) →
        item.lookup "box_number" = none → item.lookup "box_slot" = none →
        ∃ r ∈ st2.rows, r.box_number = b ∧ r.box_slot = s := by
  intro items
  induction items with
  | nil => intro st st2 h item hmem; cases hmem
  | cons it t ih =>
    intro st st2 h item hmem hb hs h1 h2
    obtain ⟨u, s1, ret, hu, hup, hrest⟩ := importFile_cons st now it t st2 h
    rcases List.mem_cons.mp hmem with rfl | hmemt
    · -- the update dict keeps the base key columns: the item has no
      -- "box_number"/"box_slot" keys, so the dictInsert fold cannot touch them
      unfold importUpdate at hu
      rw [hb, hs] at hu
      have hu2 := Option.some.inj hu
      have hfilter1 : ∀ q ∈ item.filter (fun p =>
          p.1 ∉ NON_DB_KEYS_IMPORT && p.1 ∈ schemaCols && p.2 ≠ none),
          q.1 ≠ "box_number" := by
        intro q hq hq1
        have hqm := List.mem_filter.mp hq
        have hnn := List.lookup_eq_none_iff.mp h1 q hqm.1
        rw [hq1] at hnn
        simp at hnn
      have hfilter2 : ∀ q ∈ item.filter (fun p =>
          p.1 ∉ NON_DB_KEYS_IMPORT && p.1 ∈ schemaCols && p.2 ≠ none),
          q.1 ≠ "box_slot" := by
        intro q hq hq1
        have hqm := List.mem_filter.mp hq
        have hnn := List.lookup_eq_none_iff.mp h2 q hqm.1
        rw [hq1] at hnn
        simp at hnn
      have hub : u.lookup "box_number" = some (some (Val.intV b)) := by
        rw [← hu2, lookup_foldl_dictInsert_of_forall_ne _ _ _ hfilter1]
        rfl
      have hus : u.lookup "box_slot" = some (some (Val.intV s)) := by
        rw [← hu2, lookup_foldl_dictInsert_of_forall_ne _ _ _ hfilter2]
        rfl
      exact importFile_preserves_key now b s t s1 st2 hrest
        (upsert_key_establishes st now u s1 ret b s hup hub hus)
    · exact ih s1 st2 hrest item hmemt hb hs h1 h2

/-- `importLoop` moves every processed file, in order, into `imported/`. -/
theorem importLoop_imp (now : Val) :
    ∀ (files : List (Nat × List OutItem)) (st : Store)
      (imp : Dir (List OutItem)) (st2 : Store) (imp2 : Dir (List OutItem)),
      importLoop now files st imp = some (st2, imp2) → imp2 = imp ++ files := by
  intro files
  induction files with
  | nil =>
    intro st imp st2 imp2 h
    simp only [importLoop, Option.some.injEq, Prod.mk.injEq] at h
    simp [← h.2]
  | cons f t ih =>
    intro st imp st2 imp2 h
    rw [importLoop] at h
    obtain ⟨s1, h1, h2⟩ := Option.bind_eq_some.mp h
    have := ih s1 (imp ++ [f]) st2 imp2 h2
    simpa using this

/-- `importLoop` never removes a key from the store. -/
theorem importLoop_preserves_key (now : Val) (b s : Int) :
    ∀ (files : List (Nat × List OutItem)) (st : Store)
      (imp : Dir (List OutItem)) (st2 : Store) (imp2 : Dir (List OutItem)),
      importLoop now files st imp = some (st2, imp2) →
      (∃ r ∈ st.rows, r.box_number = b ∧ r.box_slot = s) →
      ∃ r ∈ st2.rows, r.box_number = b ∧ r.box_slot = s := by
  intro files
  induction files with
  | nil =>
    intro st imp st2 imp2 h hex
    simp only [importLoop, Option.some.injEq, Prod.mk.injEq] at h
    exact h.1 ▸ hex
  | cons f t ih =>
    intro st imp st2 imp2 h hex
    rw [importLoop] at h
    obtain ⟨s1, h1, h2⟩ := Option.bind_eq_some.mp h
    exact ih s1 (imp ++ [f]) st2 imp2 h2
      (importFile_preserves_key now b s f.2 st s1 h1 hex)

/-- Every item of every file processed by a successful `importLoop` leaves
    a record with its key in the final store. -/
theorem importLoop_establishes (now : Val) (b s : Int) :
    ∀ (files : List (Nat × List OutItem)) (st : Store)
      (imp : Dir (List OutItem)) (st2 : Store) (imp2 : Dir (List OutItem)),
      importLoop now files st imp = some (st2, imp2) →
      ∀ f ∈ files, ∀ item ∈ f.2,
        item.lookup "box" = some (some (Val.intV b)) →
        item.lookup "slot" = some (some (Val.intV s)) →
        item.lookup "box_number" = none → item.lookup "box_slot" = none →
        ∃ r ∈ st2.rows, r.box_number = b ∧ r.box_slot = s := by
  intro files
  induction files with
  | nil => intro st imp st2 imp2 h f hf; cases hf
  | cons g t ih =>
    intro st imp st2 imp2 h f hf item hitem hb hs h1 h2
    rw [importLoop] at h
    obtain ⟨s1, hfile, hrest⟩ := Option.bind_eq_some.mp h
    rcases List.mem_cons.mp hf with rfl | hft
    · exact importLoop_preserves_key now b s t s1 (imp ++ [f]) st2 imp2 hrest
        (importFile_establishes now b s f.2 st s1 hfile item hitem hb hs h1 h2)
    · exact ih s1 (imp ++ [g]) st2 imp2 hrest f hft item hitem hb hs h1 h2

/-- Every key of the update dict built for an imported item is either one of
    the four fixed columns or an item key that survived the per-item filter:
    a known column, not reserved, with a non-null value. -/
theorem importUpdate_lookup (item : OutItem) (now : Val) (u : Dict)
    (f : Field) (v : Option Val)
    (hu : importUpdate item now = some u) (hf : u.lookup f = some v) :
    f = "box_number" ∨ f = "box_slot" ∨ f = "parsed_at" ∨ f = "raw_json" ∨
    ((f, v) ∈ item ∧ f ∈ schemaCols ∧ f ∉ NON_DB_KEYS_IMPORT ∧ v ≠ none) := by
  unfold importUpdate at hu
  split at hu
  next b s heq1 heq2 =>
    have hu2 := Option.some.inj hu
    rw [← hu2] at hf
    rcases lookup_foldl_dictInsert_eq_some f v _ _ hf with hbase | hfil
    · by_cases h1 : f = "box_number"
      · exact Or.inl h1
      by_cases h2 : f = "box_slot"
      · exact Or.inr (Or.inl h2)
      by_cases h3 : f = "parsed_at"
      · exact Or.inr (Or.inr (Or.inl h3))
      by_cases h4 : f = "raw_json"
      · exact Or.inr (Or.inr (Or.inr (Or.inl h4)))
      exfalso
      have e1 : (f == "box_number") = false := beq_eq_false_iff_ne.mpr h1
      have e2 : (f == "box_slot") = false := beq_eq_false_iff_ne.mpr h2
      have e3 : (f == "parsed_at") = false := beq_eq_false_iff_ne.mpr h3
      have e4 : (f == "raw_json") = false := beq_eq_false_iff_ne.mpr h4
      simp [List.lookup_cons, e1, e2, e3, e4] at hbase
    · right; right; right; right
      have hm := List.mem_filter.mp hfil
      have hcond := hm.2
      simp only [Bool.and_eq_true, decide_eq_true_eq] at hcond
      exact ⟨hm.1, hcond.1.2, hcond.1.1, hcond.2⟩
  next hne =>
    cases hu

/-- C9: a successful `cmd_import_all` moves every output file into the
    `imported/` directory and leaves the output directory empty, so a
    re-run reads no file and changes nothing; every upserted item's update
    dict drops, per item, every key that is not a known record-store column
    and every null value (keeping only the four fixed columns and the
    surviving item fields); and every item found in the output files ends up
    upserted — a record with its key exists in the final store. -/
theorem cmd_import_all_spec
    (st : Store) (out imp : Dir (List OutItem)) (now : Val)
    (st' : Store) (out' imp' : Dir (List OutItem))
    (h : cmd_import_all st out imp now = some (st', out', imp')) :
    out' = [] ∧
    imp' = imp ++ sortDir out ∧
    (∀ f ∈ out, f ∈ imp') ∧
    cmd_import_all st' out' imp' now = some (st', [], imp') ∧
    (∀ (item : OutItem) (u : Dict) (f : Field) (v : Option Val),
      importUpdate item now = some u → u.lookup f = some v →
      f = "box_number" ∨ f = "box_slot" ∨ f = "parsed_at" ∨ f = "raw_json" ∨
      ((f, v) ∈ item ∧ f ∈ schemaCols ∧ f ∉ NON_DB_KEYS_IMPORT ∧ v ≠ none)) ∧
    (∀ f ∈ out, ∀ item ∈ f.2, ∀ b s : Int,
      item.lookup "box" = some (some (Val.intV b)) →
      item.lookup "slot" = some (some (Val.intV s)) →
      item.lookup "box_number" = none → item.lookup "box_slot" = none →
      ∃ r ∈ st'.rows, r.box_number = b ∧ r.box_slot = s) := by
  have hrerun : ∀ (s0 : Store) (i0 : Dir (List OutItem)),
      cmd_import_all s0 [] i0 now = some (s0, [], i0) := by
    intro s0 i0
    simp [cmd_import_all, sortDir]
  unfold cmd_import_all at h
  dsimp only at h
  split at h
  next hemp =>
    have hnil : sortDir out = [] := by
      simpa [List.isEmpty_iff] using hemp
    have hperm : List.Perm (sortDir out) out :=
      List.mergeSort_perm out (fun a b => a.1 ≤ b.1)
    rw [hnil] at hperm
    have hout : out = [] := hperm.symm.eq_nil
    simp only [Option.some.injEq, Prod.mk.injEq] at h
    obtain ⟨h1, h2, h3⟩ := h
    subst h1; subst h2; subst h3
    refine ⟨hout, by simp [hnil], ?_, ?_, ?_, ?_⟩
    · intro f hf; rw [hout] at hf; cases hf
    · rw [hout]; exact hrerun st imp
    · intro item u f v hu hf; exact importUpdate_lookup item now u f v hu hf
    · intro f hf; rw [hout] at hf; cases hf
  next hemp =>
    split at h
    next s2 i2 hloop =>
      simp only [Option.some.injEq, Prod.mk.injEq] at h
      obtain ⟨h1, h2, h3⟩ := h
      subst h1; subst h2; subst h3
      have himp := importLoop_imp now (sortDir out) st imp s2 i2 hloop
      refine ⟨rfl, himp, ?_, hrerun s2 i2, ?_, ?_⟩
      · intro f hf
        rw [himp]
        exact List.mem_append_right _
          ((List.mergeSort_perm out (fun a b => a.1 ≤ b.1)).mem_iff.mpr hf)
      · intro item u f v hu hf; exact importUpdate_lookup item now u f v hu hf
      · intro f hf item hitem b s hb hs h1 h2
        exact importLoop_establishes now b s (sortDir out) st imp s2 i2 hloop
          f ((List.mergeSort_perm out (fun a b => a.1 ≤ b.1)).mem_iff.mpr hf)
          item hitem hb hs h1 h2
    next hloopnone =>
      cases h

/-- Witness for C9: importing from an empty output directory is a no-op. -/
theorem cmd_import_all_spec_witness :
    cmd_import_all Store.init [] [] (Val.textV "t") = some (Store.init, [], []) ∧
    (([] : Dir (List OutItem)) = [] ∧
    ([] : Dir (List OutItem)) = [] ++ sortDir ([] : Dir (List OutItem)) ∧
    (∀ f ∈ ([] : Dir (List OutItem)), f ∈ ([] : Dir (List OutItem))) ∧
    cmd_import_all Store.init [] [] (Val.textV "t") = some (Store.init, [], []) ∧
    (∀ (item : OutItem) (u : Dict) (f : Field) (v : Option Val),
      importUpdate item (Val.textV "t") = some u → u.lookup f = some v →
      f = "box_number" ∨ f = "box_slot" ∨ f = "parsed_at" ∨ f = "raw_json" ∨
      ((f, v) ∈ item ∧ f ∈ schemaCols ∧ f ∉ NON_DB_KEYS_IMPORT ∧ v ≠ none)) ∧
    (∀ f ∈ ([] : Dir (List OutItem)), ∀ item ∈ f.2, ∀ b s : Int,
      item.lookup "box" = some (some (Val.intV b)) →
      item.lookup "slot" = some (some (Val.intV s)) →
      item.lookup "box_number" = none → item.lookup "box_slot" = none →
      ∃ r ∈ Store.init.rows, r.box_number = b ∧ r.box_slot = s)) :=
  have h0 : cmd_import_all Store.init [] [] (Val.textV "t")
      = some (Store.init, [], []) := by simp [cmd_import_all, sortDir]
  ⟨h0, cmd_import_all_spec Store.init [] [] (Val.textV "t") Store.init [] [] h0⟩

end Collection
